import Mathlib

/-!
Verification development for the per-room shared-variable store of the
repository (back/src/Services/VariablesManager.ts).

The TypeScript class `VariablesManager` is shallowly embedded below:

* JavaScript `Map<string, T>` becomes an association list `List (String × T)`
  whose `set` operation (`mapSet`) replaces the first entry with a matching
  key or appends at the end, matching JS `Map` insertion-order semantics;
  `get` becomes `mapGet` (first match).
* `throw new Error(...)` becomes `Except`: schema-build errors are
  `SchemaError`, runtime errors of `setVariable` / `getVariablesForTags`
  are `VarError`, each carrying exactly the data interpolated into the
  source's error message.
* The fire-and-forget call `variablesRepository.saveVariable(roomUrl, name,
  value)` performed by `setVariable` is recorded as an explicit list of
  emitted save calls, so that theorems can speak about what is forwarded to
  the persistence backend.
* The ambient process state consulted by `shouldPersist()`
  (`redisClient !== null`, `process.env.NODE_ENV === "development"`) is an
  explicit `Env` record, and the data returned by
  `variablesRepository.loadVariables` in `init()` is an explicit argument.
* JavaScript truthiness of the optional strings `writableBy`, `readableBy`
  and `template` (`undefined` and `""` are falsy) is modelled explicitly
  wherever the source tests them with `if (x)` / `!x`.
-/

/-- JSON-compatible scalar values a Tiled custom property can carry
(`property.value` in `iTiledObjectToVariable`). -/
inductive PropValue where
  | pstr (s : String)
  | pbool (b : Bool)
  | pnum (n : Int)
  deriving DecidableEq, Repr

/-- `true` exactly when `typeof value === "boolean"` in the source. -/
def PropValue.isBoolean : PropValue → Bool
  | .pbool _ => true
  | _ => false

/-- `true` exactly when `typeof value === "string"` in the source. -/
def PropValue.isString : PropValue → Bool
  | .pstr _ => true
  | _ => false

/-- One entry of `object.properties`: a `{name, value}` custom property. -/
structure TiledProperty where
  name : String
  value : PropValue
  deriving DecidableEq, Repr

/-- An `ITiledMapObject` as consumed by `findVariablesInMap` /
`iTiledObjectToVariable`: its `name`, `type`, optional `template` reference
and optional property list. -/
structure TiledMapObject where
  name : String
  type : String
  template : Option String
  properties : Option (List TiledProperty)
  deriving DecidableEq, Repr

/-- A layer of an `ITiledMap`. Only layers whose `type` is `"objectgroup"`
have their `objects` inspected by the source (the cast to
`ITiledMapObjectLayer`). -/
structure TiledMapLayer where
  type : String
  objects : List TiledMapObject
  deriving DecidableEq, Repr

/-- An `ITiledMap`: the list of layers. -/
structure TiledMap where
  layers : List TiledMapLayer
  deriving DecidableEq, Repr

/-- The `Variable` interface of VariablesManager.ts. -/
structure Variable where
  defaultValue : Option String := none
  persist : Option Bool := none
  readableBy : Option String := none
  writableBy : Option String := none
  deriving DecidableEq, Repr

/-- The `User` entity as consumed by `setVariable`: a display name and
capability tags. -/
structure User where
  name : String
  tags : List String
  deriving DecidableEq, Repr

/-- JavaScript truthiness of an optional string (`undefined` and the empty
string are falsy). -/
def strTruthy : Option String → Bool
  | none => false
  | some s => s ≠ ""

/-- JS `Map.get`: value of the first entry with the given key. -/
def mapGet (m : List (String × α)) (k : String) : Option α :=
  match m with
  | [] => none
  | p :: rest => if p.1 = k then some p.2 else mapGet rest k

/-- JS `Map.set`: replace the entry with the given key in place, or append
a new entry at the end. -/
def mapSet (m : List (String × α)) (k : String) (v : α) : List (String × α) :=
  match m with
  | [] => [(k, v)]
  | p :: rest => if p.1 = k then (k, v) :: rest else p :: mapSet rest k v

/-- `Option` alternative: first operand if present, else the second
(used to state the overlay semantics of `init`). -/
def optOr (a b : Option α) : Option α :=
  match a with
  | some x => some x
  | none => b

/-- Errors thrown while building the schema
(`iTiledObjectToVariable`), carrying the object name interpolated into the
source's message. -/
inductive SchemaError where
  | persistNotBoolean (objectName : String)
  | writableByNotString (objectName : String)
  | readableByNotString (objectName : String)
  deriving DecidableEq, Repr

/-- Errors thrown by `setVariable` and `getVariablesForTags`, carrying the
data interpolated into the source's messages. -/
inductive VarError where
  | unknownVariable (name : String)
  | insufficientPermission (name userName requiredTag : String)
      (userTags : List String)
  | unexpectedVariable (name : String)
  deriving DecidableEq, Repr

/-- `true` on `Except.ok`. -/
def exceptIsOk : Except ε α → Bool
  | .ok _ => true
  | .error _ => false

instance instDecEqExcept [DecidableEq ε] [DecidableEq α] :
    DecidableEq (Except ε α) := fun a b =>
  match a, b with
  | .ok x, .ok y =>
    if h : x = y then .isTrue (by rw [h])
    else .isFalse (by intro hc; cases hc; exact h rfl)
  | .error x, .error y =>
    if h : x = y then .isTrue (by rw [h])
    else .isFalse (by intro hc; cases hc; exact h rfl)
  | .ok _, .error _ => .isFalse (by intro hc; cases hc)
  | .error _, .ok _ => .isFalse (by intro hc; cases hc)

/-- Escape of one character as performed by `JSON.stringify` on the
characters occurring in a JSON string. -/
def jsonEscape (c : Char) : String :=
  if c = '\\' then "\\\\"
  else if c = '"' then "\\\""
  else if c = '\n' then "\\n"
  else if c = '\r' then "\\r"
  else if c = '\t' then "\\t"
  else c.toString

/-- `JSON.stringify` on the scalar property values of the model. -/
def jsonStringify : PropValue → String
  | .pstr s => "\"" ++ String.join (s.data.map jsonEscape) ++ "\""
  | .pbool b => if b then "true" else "false"
  | .pnum n => toString n

/-- One iteration of the `switch (property.name)` loop in
`iTiledObjectToVariable`: fold a single property into the variable being
built. An empty `writableBy` / `readableBy` string leaves the field
untouched (`if (value)` in the source); unrecognized names are ignored. -/
def applyProperty (objectName : String) (v : Variable) (p : TiledProperty) :
    Except SchemaError Variable :=
  if p.name = "default" then
    .ok { v with defaultValue := some (jsonStringify p.value) }
  else if p.name = "persist" then
    match p.value with
    | .pbool b => .ok { v with persist := some b }
    | _ => .error (.persistNotBoolean objectName)
  else if p.name = "writableBy" then
    match p.value with
    | .pstr s => if s = "" then .ok v else .ok { v with writableBy := some s }
    | _ => .error (.writableByNotString objectName)
  else if p.name = "readableBy" then
    match p.value with
    | .pstr s => if s = "" then .ok v else .ok { v with readableBy := some s }
    | _ => .error (.readableByNotString objectName)
  else .ok v

/-- The property loop of `iTiledObjectToVariable`. -/
def applyProperties (objectName : String) :
    Variable → List TiledProperty → Except SchemaError Variable
  | v, [] => .ok v
  | v, p :: rest =>
    match applyProperty objectName v p with
    | .error e => .error e
    | .ok v2 => applyProperties objectName v2 rest

/-- `VariablesManager.iTiledObjectToVariable`. -/
def iTiledObjectToVariable (o : TiledMapObject) : Except SchemaError Variable :=
  match o.properties with
  | none => .ok {}
  | some props => applyProperties o.name {} props

/-- One iteration of the object loop of `findVariablesInMap`: objects whose
`type` is not `"variable"` are skipped, objects with a truthy `template`
are skipped with a warning, the rest are converted and stored. -/
def processObject (acc : List (String × Variable)) (o : TiledMapObject) :
    Except SchemaError (List (String × Variable)) :=
  if o.type = "variable" then
    if strTruthy o.template then .ok acc
    else
      match iTiledObjectToVariable o with
      | .error e => .error e
      | .ok v => .ok (mapSet acc o.name v)
  else .ok acc

/-- The object loop of `findVariablesInMap` over one object layer. -/
def processObjects :
    List (String × Variable) → List TiledMapObject →
      Except SchemaError (List (String × Variable))
  | acc, [] => .ok acc
  | acc, o :: rest =>
    match processObject acc o with
    | .error e => .error e
    | .ok acc2 => processObjects acc2 rest

/-- The layer loop of `findVariablesInMap`: only `"objectgroup"` layers are
inspected. -/
def processLayers :
    List (String × Variable) → List TiledMapLayer →
      Except SchemaError (List (String × Variable))
  | acc, [] => .ok acc
  | acc, l :: rest =>
    if l.type = "objectgroup" then
      match processObjects acc l.objects with
      | .error e => .error e
      | .ok acc2 => processLayers acc2 rest
    else processLayers acc rest

/-- `VariablesManager.findVariablesInMap`. -/
def findVariablesInMap (m : TiledMap) :
    Except SchemaError (List (String × Variable)) :=
  processLayers [] m.layers

/-- The default-value seeding loop of the constructor: for every declared
variable, in declaration order, set its `defaultValue` if it has one. -/
def seedDefaults (objs : List (String × Variable)) : List (String × String) :=
  objs.foldl
    (fun m kv =>
      match kv.2.defaultValue with
      | some d => mapSet m kv.1 d
      | none => m)
    []

/-- The state of a `VariablesManager` instance: the constructor arguments
`roomUrl` and `map`, the value map `_variables` and the schema
`variableObjects` (absent exactly when the map is absent). -/
structure VariablesManager where
  roomUrl : String
  map : Option TiledMap
  _variables : List (String × String)
  variableObjects : Option (List (String × Variable))
  deriving DecidableEq, Repr

/-- The constructor of `VariablesManager`: with a map, build the schema via
`findVariablesInMap` (propagating its fatal errors) and seed the default
values; with `null` map, no schema and an empty value map. -/
def VariablesManager.make (roomUrl : String) (map : Option TiledMap) :
    Except SchemaError VariablesManager :=
  match map with
  | none => .ok ⟨roomUrl, none, [], none⟩
  | some m =>
    match findVariablesInMap m with
    | .error e => .error e
    | .ok objs => .ok ⟨roomUrl, some m, seedDefaults objs, some objs⟩

/-- The ambient process state consulted by `shouldPersist()`:
`redisClient !== null` and `process.env.NODE_ENV === "development"`. -/
structure Env where
  redisConfigured : Bool
  nodeEnvDevelopment : Bool
  deriving DecidableEq, Repr

/-- `VariablesManager.shouldPersist`:
`redisClient !== null && (this.map !== null || process.env.NODE_ENV === "development")`. -/
def VariablesManager.shouldPersist (vm : VariablesManager) (env : Env) : Bool :=
  env.redisConfigured && (vm.map.isSome || env.nodeEnvDevelopment)

/-- `VariablesManager.init`: early-return when persistence is off,
otherwise overlay every loaded key/value pair onto `_variables`.
`loaded` is the data the external call
`variablesRepository.loadVariables(this.roomUrl)` resolved with. -/
def VariablesManager.init (vm : VariablesManager) (env : Env)
    (loaded : List (String × String)) : VariablesManager :=
  if vm.shouldPersist env = false then vm
  else
    { vm with
      _variables := loaded.foldl (fun m kv => mapSet m kv.1 kv.2) vm._variables }

/-- A save call `saveVariable(roomUrl, name, value)` forwarded to the
persistence backend (`variablesRepository`). -/
abbrev SaveCall := String × String × String

/-- `VariablesManager.setVariable`. Returns the result of the call (the
`readableBy` value on success, the thrown error otherwise), the state of
the manager after the call, and the list of save calls forwarded to the
persistence backend during the call. -/
def VariablesManager.setVariable (vm : VariablesManager)
    (name value : String) (user : User) :
    Except VarError (Option String) × VariablesManager × List SaveCall :=
  match vm.variableObjects with
  | some objs =>
    match mapGet objs name with
    | none => (.error (.unknownVariable name), vm, [])
    | some vo =>
      match vo.writableBy with
      | some w =>
        if w ≠ "" ∧ user.tags.contains w = false then
          (.error (.insufficientPermission name user.name w user.tags), vm, [])
        else
          (.ok vo.readableBy,
            { vm with _variables := mapSet vm._variables name value },
            [(vm.roomUrl, name, value)])
      | none =>
        (.ok vo.readableBy,
          { vm with _variables := mapSet vm._variables name value },
          [(vm.roomUrl, name, value)])
  | none =>
    (.ok none,
      { vm with _variables := mapSet vm._variables name value },
      [(vm.roomUrl, name, value)])

/-- The filtering loop of `getVariablesForTags`: an entry is kept when its
definition's `readableBy` is falsy or contained in `tags`; an entry with no
definition raises the internal-consistency error. -/
def readableFilter (objs : List (String × Variable)) (tags : List String) :
    List (String × String) → Except VarError (List (String × String))
  | [] => .ok []
  | (k, v) :: rest =>
    match mapGet objs k with
    | none => .error (.unexpectedVariable k)
    | some vo =>
      match readableFilter objs tags rest with
      | .error e => .error e
      | .ok tl =>
        if strTruthy vo.readableBy = false ∨
            tags.contains ((vo.readableBy).getD "") = true then
          .ok ((k, v) :: tl)
        else .ok tl

/-- `VariablesManager.getVariablesForTags`. -/
def VariablesManager.getVariablesForTags (vm : VariablesManager)
    (tags : List String) : Except VarError (List (String × String)) :=
  match vm.variableObjects with
  | none => .ok vm._variables
  | some objs => readableFilter objs tags vm._variables

/-- `true` when the variable carries an effective `readableBy` restriction
(a non-empty declared tag; the schema treats the empty string as unset). -/
def hasReadRestriction (vo : Variable) : Bool := strTruthy vo.readableBy

/-- `true` when the result of a `setVariable` call is the unknown-variable
error. -/
def isUnknownVarError : Except VarError (Option String) → Bool
  | .error (.unknownVariable _) => true
  | _ => false

/-- One observable operation on a live `VariablesManager`, as invoked by the
room's single-threaded owner: an `init` (whose loaded data only holds keys
declared in the schema, when a schema exists), a `setVariable` call
(successful or rejected — the resulting state is taken either way), or a
read via `getVariablesForTags` (which does not change the state). -/
inductive Step (env : Env) : VariablesManager → VariablesManager → Prop
  | initStep (vm : VariablesManager) (loaded : List (String × String))
      (hkeys : ∀ kv ∈ loaded, ∀ objs, vm.variableObjects = some objs →
        (mapGet objs kv.1).isSome = true) :
      Step env vm (vm.init env loaded)
  | setStep (vm : VariablesManager) (name value : String) (user : User) :
      Step env vm (vm.setVariable name value user).2.1
  | getStep (vm : VariablesManager) (tags : List String) :
      Step env vm vm

/-- Concrete map fixture: one object layer declaring variable `x` with a
`default` of `"0"`, and variable `y` with `persist` set to `false`. -/
def cmap0 : TiledMap :=
  ⟨[⟨"objectgroup",
    [⟨"x", "variable", none, some [⟨"default", .pstr "0"⟩]⟩,
     ⟨"y", "variable", none, some [⟨"persist", .pbool false⟩]⟩]⟩]⟩

/-- The schema extracted from `cmap0`. -/
def cobjs0 : List (String × Variable) :=
  [("x", { defaultValue := some "\"0\"" }), ("y", { persist := some false })]

/-- The store constructed from `cmap0`. -/
def cvm0 : VariablesManager := ⟨"room", some cmap0, [("x", "\"0\"")], some cobjs0⟩

/-- `cvm0` after a successful `setVariable "x" "v"`. -/
def cvm0x : VariablesManager := ⟨"room", some cmap0, [("x", "v")], some cobjs0⟩

/-- Concrete map fixture with read/write restrictions: `pub` is
unrestricted, `sec` is readable and writable only with tag `admin`. -/
def cmapR : TiledMap :=
  ⟨[⟨"objectgroup",
    [⟨"pub", "variable", none, some [⟨"default", .pstr "p"⟩]⟩,
     ⟨"sec", "variable", none,
       some [⟨"default", .pstr "s"⟩, ⟨"readableBy", .pstr "admin"⟩,
             ⟨"writableBy", .pstr "admin"⟩]⟩]⟩]⟩

/-- The definition extracted for variable `sec` of `cmapR`. -/
def csecVar : Variable :=
  { defaultValue := some "\"s\"", readableBy := some "admin",
    writableBy := some "admin" }

/-- The schema extracted from `cmapR`. -/
def cobjsR : List (String × Variable) :=
  [("pub", { defaultValue := some "\"p\"" }), ("sec", csecVar)]

/-- The store constructed from `cmapR`. -/
def cvmR : VariablesManager :=
  ⟨"roomR", some cmapR, [("pub", "\"p\""), ("sec", "\"s\"")], some cobjsR⟩

/-- `cvmR` after a successful `setVariable "sec" "42"` by an `admin` user:
the store of the spec's concrete scenario, whose value map no longer holds
the seeded defaults. -/
def cvmR42 : VariablesManager :=
  ⟨"roomR", some cmapR, [("pub", "\"p\""), ("sec", "42")], some cobjsR⟩

/-- A schema-less store (constructed with a `null` map) holding one value. -/
def cvmFree : VariablesManager := ⟨"roomF", none, [("a", "1")], none⟩

/-- A user holding no tags. -/
def cuser : User := ⟨"carol", []⟩

/-- A user holding only the `guest` tag. -/
def cguest : User := ⟨"bob", ["guest"]⟩

/-- A user holding the `admin` tag. -/
def cadmin : User := ⟨"alice", ["admin"]⟩

/-- An environment with a configured Redis backend, not in development. -/
def cenv : Env := ⟨true, false⟩

/-- A variable object whose `persist` property is a string, not a boolean. -/
def cBadPersistObj : TiledMapObject :=
  ⟨"bp", "variable", none, some [⟨"persist", .pstr "yes"⟩]⟩

/-- A variable object whose `writableBy` property is a number. -/
def cBadWriteObj : TiledMapObject :=
  ⟨"bw", "variable", none, some [⟨"writableBy", .pnum 3⟩]⟩

/-- No definition in the schema has `writableBy` set to the empty string
(the extraction treats an empty `writableBy` as unset). -/
def NoEmptyWb (objs : List (String × Variable)) : Prop :=
  ∀ k vo, mapGet objs k = some vo → vo.writableBy ≠ some ""

theorem mapGet_mapSet (m : List (String × α)) (k k2 : String) (v : α) :
    mapGet (mapSet m k v) k2 = if k = k2 then some v else mapGet m k2 := by
  induction m with
  | nil => simp [mapSet, mapGet]
  | cons p rest ih =>
    by_cases h1 : p.1 = k
    · by_cases h2 : k = k2
      · subst h2; simp [mapSet, mapGet, h1]
      · simp [mapSet, mapGet, h1, h2]
    · by_cases h2 : p.1 = k2
      · have hk : ¬(k = k2) := fun hc => h1 (hc ▸ h2)
        have hk2 : ¬(k2 = k) := fun hc => hk hc.symm
        simp [mapSet, mapGet, h1, h2, hk, hk2]
      · simp [mapSet, mapGet, h1, h2, ih]

theorem mapSet_idem (m : List (String × α)) (k : String) (v : α) :
    mapSet (mapSet m k v) k v = mapSet m k v := by
  induction m with
  | nil => simp [mapSet]
  | cons p rest ih =>
    by_cases h1 : p.1 = k
    · simp [mapSet, h1]
    · simp [mapSet, h1, ih]

theorem mapGet_eq_none_of_not_mem (l : List (String × α)) (k : String)
    (h : k ∉ l.map Prod.fst) : mapGet l k = none := by
  induction l with
  | nil => simp [mapGet]
  | cons p rest ih =>
    simp only [List.map_cons, List.mem_cons] at h
    push_neg at h
    have h1 : p.1 ≠ k := fun hc => h.1 hc.symm
    simp [mapGet, h1, ih h.2]

theorem foldl_mapSet_overlay (loaded : List (String × String))
    (m : List (String × String)) (k : String)
    (hnd : (loaded.map Prod.fst).Nodup) :
    mapGet (loaded.foldl (fun acc kv => mapSet acc kv.1 kv.2) m) k =
      optOr (mapGet loaded k) (mapGet m k) := by
  induction loaded generalizing m with
  | nil => simp [mapGet, optOr]
  | cons kv rest ih =>
    simp only [List.map_cons, List.nodup_cons] at hnd
    rw [List.foldl_cons, ih (mapSet m kv.1 kv.2) hnd.2]
    by_cases hk : kv.1 = k
    · have hnone : mapGet rest k = none := by
        apply mapGet_eq_none_of_not_mem
        rw [← hk]; exact hnd.1
      simp [mapGet, hk, hnone, optOr, mapGet_mapSet]
    · simp [mapGet, hk, optOr, mapGet_mapSet]

theorem foldl_mapSet_isSome (loaded : List (String × String))
    (m : List (String × String)) (k : String)
    (h : (mapGet (loaded.foldl (fun acc kv => mapSet acc kv.1 kv.2) m) k).isSome
      = true) :
    (mapGet m k).isSome = true ∨ ∃ kv ∈ loaded, kv.1 = k := by
  induction loaded generalizing m with
  | nil => exact Or.inl h
  | cons kv rest ih =>
    rw [List.foldl_cons] at h
    rcases ih (mapSet m kv.1 kv.2) h with h1 | h1
    · rw [mapGet_mapSet] at h1
      by_cases hk : kv.1 = k
      · exact Or.inr ⟨kv, List.mem_cons_self kv rest, hk⟩
      · rw [if_neg hk] at h1
        exact Or.inl h1
    · rcases h1 with ⟨kv2, hmem, hkeq⟩
      exact Or.inr ⟨kv2, List.mem_cons_of_mem kv hmem, hkeq⟩

theorem seedDefaults_aux (objs : List (String × Variable))
    (acc : List (String × String)) (k : String)
    (h : (mapGet (objs.foldl
        (fun m kv =>
          match kv.2.defaultValue with
          | some d => mapSet m kv.1 d
          | none => m) acc) k).isSome = true) :
    (mapGet acc k).isSome = true ∨ (mapGet objs k).isSome = true := by
  induction objs generalizing acc with
  | nil => exact Or.inl h
  | cons kv rest ih =>
    by_cases hk : kv.1 = k
    · exact Or.inr (by simp [mapGet, hk])
    · rw [List.foldl_cons] at h
      rcases ih _ h with h1 | h1
      · cases hd : kv.2.defaultValue with
        | none => rw [hd] at h1; exact Or.inl h1
        | some d =>
          rw [hd, mapGet_mapSet, if_neg hk] at h1
          exact Or.inl h1
      · exact Or.inr (by simp [mapGet, hk, h1])

theorem seedDefaults_isSome (objs : List (String × Variable)) (k : String)
    (h : (mapGet (seedDefaults objs) k).isSome = true) :
    (mapGet objs k).isSome = true := by
  rcases seedDefaults_aux objs [] k h with h1 | h1
  · simp [mapGet] at h1
  · exact h1

theorem setVariable_noSchema (vm : VariablesManager) (n v : String) (u : User)
    (h : vm.variableObjects = none) :
    vm.setVariable n v u =
      (.ok none, { vm with _variables := mapSet vm._variables n v },
        [(vm.roomUrl, n, v)]) := by
  simp [VariablesManager.setVariable, h]

theorem setVariable_unknown (vm : VariablesManager) (n v : String) (u : User)
    (objs : List (String × Variable))
    (h1 : vm.variableObjects = some objs) (h2 : mapGet objs n = none) :
    vm.setVariable n v u = (.error (.unknownVariable n), vm, []) := by
  simp [VariablesManager.setVariable, h1, h2]

theorem setVariable_authFail (vm : VariablesManager) (n v : String) (u : User)
    (objs : List (String × Variable)) (vo : Variable) (w : String)
    (h1 : vm.variableObjects = some objs) (h2 : mapGet objs n = some vo)
    (h3 : vo.writableBy = some w) (h4 : w ≠ "")
    (h5 : u.tags.contains w = false) :
    vm.setVariable n v u =
      (.error (.insufficientPermission n u.name w u.tags), vm, []) := by
  have h5' : w ∉ u.tags := by simpa using h5
  simp [VariablesManager.setVariable, h1, h2, h3, h4, h5']

theorem setVariable_okWrite (vm : VariablesManager) (n v : String) (u : User)
    (objs : List (String × Variable)) (vo : Variable)
    (h1 : vm.variableObjects = some objs) (h2 : mapGet objs n = some vo)
    (h3 : ∀ w, vo.writableBy = some w → w = "" ∨ u.tags.contains w = true) :
    vm.setVariable n v u =
      (.ok vo.readableBy, { vm with _variables := mapSet vm._variables n v },
        [(vm.roomUrl, n, v)]) := by
  cases hw : vo.writableBy with
  | none => simp [VariablesManager.setVariable, h1, h2, hw]
  | some w =>
    rcases h3 w hw with he | he
    · subst he; simp [VariablesManager.setVariable, h1, h2, hw]
    · have he' : w ∈ u.tags := by simpa using he
      simp [VariablesManager.setVariable, h1, h2, hw]
      intro hne
      exact he'

theorem setVariable_state (vm : VariablesManager) (n v : String) (u : User) :
    (vm.setVariable n v u).2.1 = vm ∨
    (vm.setVariable n v u).2.1 =
      { vm with _variables := mapSet vm._variables n v } := by
  unfold VariablesManager.setVariable
  split
  · split
    · simp
    · split
      · split
        · simp
        · simp
      · simp
  · simp

theorem setVariable_frame_fields (vm : VariablesManager) (n v : String)
    (u : User) :
    (vm.setVariable n v u).2.1.variableObjects = vm.variableObjects ∧
    (vm.setVariable n v u).2.1.roomUrl = vm.roomUrl ∧
    (vm.setVariable n v u).2.1.map = vm.map := by
  rcases setVariable_state vm n v u with h | h <;> rw [h] <;>
    exact ⟨rfl, rfl, rfl⟩

theorem setVariable_ok (vm : VariablesManager) (n v : String) (u : User)
    (r : Option String) (vm' : VariablesManager) (s : List SaveCall)
    (h : vm.setVariable n v u = (.ok r, vm', s)) :
    vm' = { vm with _variables := mapSet vm._variables n v } ∧
    s = [(vm.roomUrl, n, v)] ∧
    ((vm.variableObjects = none ∧ r = none) ∨
      ∃ objs vo, vm.variableObjects = some objs ∧ mapGet objs n = some vo ∧
        r = vo.readableBy) := by
  obtain ⟨url, mp, vars, vobjs⟩ := vm
  cases vobjs with
  | none =>
    rw [setVariable_noSchema _ n v u rfl] at h
    simp only [Prod.mk.injEq, Except.ok.injEq] at h
    exact ⟨h.2.1.symm, h.2.2.symm, Or.inl ⟨rfl, h.1.symm⟩⟩
  | some objs =>
    cases hg : mapGet objs n with
    | none =>
      rw [setVariable_unknown _ n v u objs rfl hg] at h
      simp at h
    | some vo =>
      cases hw : vo.writableBy with
      | none =>
        rw [setVariable_okWrite _ n v u objs vo rfl hg
          (fun w hww => by rw [hw] at hww; cases hww)] at h
        simp only [Prod.mk.injEq, Except.ok.injEq] at h
        exact ⟨h.2.1.symm, h.2.2.symm, Or.inr ⟨objs, vo, rfl, hg, h.1.symm⟩⟩
      | some w =>
        by_cases hc : w ≠ "" ∧ u.tags.contains w = false
        · rw [setVariable_authFail _ n v u objs vo w rfl hg hw hc.1 hc.2] at h
          simp at h
        · push_neg at hc
          have h3 : ∀ w2, vo.writableBy = some w2 →
              w2 = "" ∨ u.tags.contains w2 = true := by
            intro w2 hww
            rw [hw] at hww
            injection hww with hww
            rw [← hww]
            by_cases he : w = ""
            · exact Or.inl he
            · right
              have := hc he
              simpa using this
          rw [setVariable_okWrite _ n v u objs vo rfl hg h3] at h
          simp only [Prod.mk.injEq, Except.ok.injEq] at h
          exact ⟨h.2.1.symm, h.2.2.symm, Or.inr ⟨objs, vo, rfl, hg, h.1.symm⟩⟩

theorem applyProperty_wb (objectName : String) (v v2 : Variable)
    (p : TiledProperty) (hv : v.writableBy ≠ some "")
    (h : applyProperty objectName v p = .ok v2) :
    v2.writableBy ≠ some "" := by
  unfold applyProperty at h
  split_ifs at h with hd hp hw hr
  · simp only [Except.ok.injEq] at h; rw [← h]; exact hv
  · cases hval : p.value with
    | pbool b =>
      rw [hval] at h; simp only [Except.ok.injEq] at h; rw [← h]; exact hv
    | pstr s => rw [hval] at h; simp at h
    | pnum n2 => rw [hval] at h; simp at h
  · cases hval : p.value with
    | pstr s =>
      rw [hval] at h
      by_cases hs : s = ""
      · simp only [if_pos hs, Except.ok.injEq] at h; rw [← h]
        exact hv
      · simp only [if_neg hs, Except.ok.injEq] at h; rw [← h]
        simp [hs]
    | pbool b => rw [hval] at h; simp at h
    | pnum n2 => rw [hval] at h; simp at h
  · cases hval : p.value with
    | pstr s =>
      rw [hval] at h
      by_cases hs : s = ""
      · simp only [if_pos hs, Except.ok.injEq] at h; rw [← h]
        exact hv
      · simp only [if_neg hs, Except.ok.injEq] at h; rw [← h]
        exact hv
    | pbool b => rw [hval] at h; simp at h
    | pnum n2 => rw [hval] at h; simp at h
  · simp only [Except.ok.injEq] at h; rw [← h]; exact hv

theorem applyProperties_wb (objectName : String) (v v2 : Variable)
    (ps : List TiledProperty) (hv : v.writableBy ≠ some "")
    (h : applyProperties objectName v ps = .ok v2) :
    v2.writableBy ≠ some "" := by
  induction ps generalizing v with
  | nil => simp only [applyProperties, Except.ok.injEq] at h; rw [← h]; exact hv
  | cons p rest ih =>
    rw [applyProperties] at h
    cases happ : applyProperty objectName v p with
    | error e => rw [happ] at h; simp at h
    | ok vmid =>
      rw [happ] at h
      exact ih vmid (applyProperty_wb objectName v vmid p hv happ) h

theorem iTiledObjectToVariable_wb (o : TiledMapObject) (v : Variable)
    (h : iTiledObjectToVariable o = .ok v) : v.writableBy ≠ some "" := by
  unfold iTiledObjectToVariable at h
  cases hp : o.properties with
  | none =>
    rw [hp] at h; simp only [Except.ok.injEq] at h; rw [← h]
    intro hc; exact Option.noConfusion hc
  | some props =>
    rw [hp] at h
    exact applyProperties_wb o.name {} v props
      (fun hc => Option.noConfusion hc) h

theorem mapSet_noEmptyWb (acc : List (String × Variable)) (n : String)
    (v : Variable) (hacc : NoEmptyWb acc) (hv : v.writableBy ≠ some "") :
    NoEmptyWb (mapSet acc n v) := by
  intro k vo hk
  rw [mapGet_mapSet] at hk
  by_cases he : n = k
  · rw [if_pos he] at hk; injection hk with hk; rw [← hk]; exact hv
  · rw [if_neg he] at hk; exact hacc k vo hk

theorem processObject_wb (acc acc2 : List (String × Variable))
    (o : TiledMapObject) (hacc : NoEmptyWb acc)
    (h : processObject acc o = .ok acc2) : NoEmptyWb acc2 := by
  unfold processObject at h
  split_ifs at h with ht hs
  · simp only [Except.ok.injEq] at h; rw [← h]; exact hacc
  · cases hv : iTiledObjectToVariable o with
    | error e => rw [hv] at h; simp at h
    | ok v =>
      rw [hv] at h; simp only [Except.ok.injEq] at h; rw [← h]
      exact mapSet_noEmptyWb acc o.name v hacc (iTiledObjectToVariable_wb o v hv)
  · simp only [Except.ok.injEq] at h; rw [← h]; exact hacc

theorem processObjects_wb (l : List TiledMapObject)
    (acc acc2 : List (String × Variable)) (hacc : NoEmptyWb acc)
    (h : processObjects acc l = .ok acc2) : NoEmptyWb acc2 := by
  induction l generalizing acc with
  | nil => simp only [processObjects, Except.ok.injEq] at h; rw [← h]; exact hacc
  | cons o rest ih =>
    rw [processObjects] at h
    cases ho : processObject acc o with
    | error e => rw [ho] at h; simp at h
    | ok accMid =>
      rw [ho] at h
      exact ih accMid (processObject_wb acc accMid o hacc ho) h

theorem processLayers_wb (ls : List TiledMapLayer)
    (acc acc2 : List (String × Variable)) (hacc : NoEmptyWb acc)
    (h : processLayers acc ls = .ok acc2) : NoEmptyWb acc2 := by
  induction ls generalizing acc with
  | nil => simp only [processLayers, Except.ok.injEq] at h; rw [← h]; exact hacc
  | cons l rest ih =>
    rw [processLayers] at h
    by_cases ht : l.type = "objectgroup"
    · rw [if_pos ht] at h
      cases ho : processObjects acc l.objects with
      | error e => rw [ho] at h; simp at h
      | ok accMid =>
        rw [ho] at h
        exact ih accMid (processObjects_wb l.objects acc accMid hacc ho) h
    · rw [if_neg ht] at h
      exact ih acc hacc h

theorem findVariablesInMap_wb (m : TiledMap) (objs : List (String × Variable))
    (h : findVariablesInMap m = .ok objs) : NoEmptyWb objs := by
  unfold findVariablesInMap at h
  exact processLayers_wb m.layers [] objs
    (fun k vo hk => by simp [mapGet] at hk) h

theorem make_some_inv (url : String) (m : TiledMap) (vm : VariablesManager)
    (hmk : VariablesManager.make url (some m) = .ok vm) :
    ∃ objs, findVariablesInMap m = .ok objs ∧
      vm = ⟨url, some m, seedDefaults objs, some objs⟩ := by
  cases hf : findVariablesInMap m with
  | error e => simp [VariablesManager.make, hf] at hmk
  | ok objs =>
    simp only [VariablesManager.make, hf, Except.ok.injEq] at hmk
    exact ⟨objs, rfl, hmk.symm⟩

theorem make_wb (url : String) (m : TiledMap) (vm : VariablesManager)
    (objs : List (String × Variable))
    (hmk : VariablesManager.make url (some m) = .ok vm)
    (hobjs : vm.variableObjects = some objs) : NoEmptyWb objs := by
  obtain ⟨objs2, hf, hvm⟩ := make_some_inv url m vm hmk
  rw [hvm] at hobjs
  obtain rfl : objs2 = objs := Option.some.inj hobjs
  exact findVariablesInMap_wb m objs2 hf

theorem readCond_iff (vo : Variable) (tags : List String) :
    (strTruthy vo.readableBy = false ∨
      tags.contains ((vo.readableBy).getD "") = true) ↔
    (hasReadRestriction vo = false ∨
      ∃ t, vo.readableBy = some t ∧ tags.contains t = true) := by
  unfold hasReadRestriction
  cases h : vo.readableBy with
  | none => simp [strTruthy]
  | some w =>
    by_cases hw : w = ""
    · subst hw; simp [strTruthy]
    · simp [strTruthy, hw]

theorem readableFilter_spec (objs : List (String × Variable))
    (tags : List String) (l : List (String × String))
    (hcov : ∀ kv ∈ l, (mapGet objs kv.1).isSome = true) :
    ∃ res, readableFilter objs tags l = .ok res ∧
      ∀ k v, (k, v) ∈ res ↔ ((k, v) ∈ l ∧
        ∃ vo, mapGet objs k = some vo ∧
          (hasReadRestriction vo = false ∨
            ∃ t, vo.readableBy = some t ∧ tags.contains t = true)) := by
  induction l with
  | nil =>
    refine ⟨[], rfl, ?_⟩
    simp
  | cons kv rest ih =>
    obtain ⟨k0, v0⟩ := kv
    have hk0 : (mapGet objs k0).isSome = true :=
      hcov (k0, v0) (List.mem_cons_self _ _)
    obtain ⟨vo0, hvo0⟩ := Option.isSome_iff_exists.mp hk0
    obtain ⟨res, hres, hmem⟩ :=
      ih (fun kv2 hm => hcov kv2 (List.mem_cons_of_mem _ hm))
    by_cases hinc : strTruthy vo0.readableBy = false ∨
        tags.contains ((vo0.readableBy).getD "") = true
    · refine ⟨(k0, v0) :: res, ?_, ?_⟩
      · simp only [readableFilter, hvo0, hres, if_pos hinc]
      · intro k v
        constructor
        · intro hm
          rcases List.mem_cons.mp hm with he | hm2
          · simp only [Prod.mk.injEq] at he
            obtain ⟨rfl, rfl⟩ := he
            exact ⟨List.mem_cons_self _ _,
              vo0, hvo0, (readCond_iff vo0 tags).mp hinc⟩
          · obtain ⟨hm3, hP⟩ := (hmem k v).mp hm2
            exact ⟨List.mem_cons_of_mem _ hm3, hP⟩
        · rintro ⟨hm, hP⟩
          rcases List.mem_cons.mp hm with he | hm2
          · simp only [Prod.mk.injEq] at he
            obtain ⟨rfl, rfl⟩ := he
            exact List.mem_cons_self _ _
          · exact List.mem_cons_of_mem _ ((hmem k v).mpr ⟨hm2, hP⟩)
    · refine ⟨res, ?_, ?_⟩
      · simp only [readableFilter, hvo0, hres, if_neg hinc]
      · intro k v
        constructor
        · intro hm
          obtain ⟨hm2, hP⟩ := (hmem k v).mp hm
          exact ⟨List.mem_cons_of_mem _ hm2, hP⟩
        · rintro ⟨hm, hP⟩
          rcases List.mem_cons.mp hm with he | hm2
          · simp only [Prod.mk.injEq] at he
            obtain ⟨rfl, rfl⟩ := he
            obtain ⟨vo, hvo, hcond⟩ := hP
            rw [hvo0] at hvo
            obtain rfl := Option.some.inj hvo
            exact absurd ((readCond_iff vo0 tags).mpr hcond) hinc
          · exact (hmem k v).mpr ⟨hm2, hP⟩

theorem setVariable_vars (vm : VariablesManager) (n v : String) (u : User) :
    (vm.setVariable n v u).2.1._variables = vm._variables ∨
    ((vm.setVariable n v u).2.1._variables = mapSet vm._variables n v ∧
      ∀ objs, vm.variableObjects = some objs →
        (mapGet objs n).isSome = true) := by
  obtain ⟨url, mp, vars, vobjs⟩ := vm
  cases vobjs with
  | none =>
    right
    constructor
    · rw [setVariable_noSchema _ n v u rfl]
    · intro objs h; cases h
  | some objs =>
    cases hg : mapGet objs n with
    | none =>
      left
      rw [setVariable_unknown _ n v u objs rfl hg]
    | some vo =>
      cases hw : vo.writableBy with
      | none =>
        right
        refine ⟨?_, ?_⟩
        · rw [setVariable_okWrite _ n v u objs vo rfl hg
            (fun w hww => by rw [hw] at hww; cases hww)]
        · intro objs2 h
          obtain rfl := Option.some.inj h
          rw [hg]; rfl
      | some w =>
        by_cases hc : w ≠ "" ∧ u.tags.contains w = false
        · left
          rw [setVariable_authFail _ n v u objs vo w rfl hg hw hc.1 hc.2]
        · right
          push_neg at hc
          have h3 : ∀ w2, vo.writableBy = some w2 →
              w2 = "" ∨ u.tags.contains w2 = true := by
            intro w2 hww
            rw [hw] at hww
            injection hww with hww
            rw [← hww]
            by_cases he : w = ""
            · exact Or.inl he
            · exact Or.inr (by simpa using hc he)
          refine ⟨?_, ?_⟩
          · rw [setVariable_okWrite _ n v u objs vo rfl hg h3]
          · intro objs2 h
            obtain rfl := Option.some.inj h
            rw [hg]; rfl

theorem step_objects (env : Env) (vm vm2 : VariablesManager)
    (h : Step env vm vm2) : vm2.variableObjects = vm.variableObjects := by
  cases h with
  | initStep loaded hkeys =>
    unfold VariablesManager.init
    by_cases hp : vm.shouldPersist env = false
    · rw [if_pos hp]
    · rw [if_neg hp]
  | setStep nm val u => exact (setVariable_frame_fields vm nm val u).1
  | getStep tags => rfl

theorem step_inv (env : Env) (objs0 : List (String × Variable))
    (vm vm2 : VariablesManager) (h : Step env vm vm2)
    (hobjs : vm.variableObjects = some objs0)
    (hinv : ∀ k, (mapGet vm._variables k).isSome = true →
      (mapGet objs0 k).isSome = true) :
    ∀ k, (mapGet vm2._variables k).isSome = true →
      (mapGet objs0 k).isSome = true := by
  cases h with
  | initStep loaded hkeys =>
    intro k hk
    unfold VariablesManager.init at hk
    by_cases hp : vm.shouldPersist env = false
    · rw [if_pos hp] at hk; exact hinv k hk
    · rw [if_neg hp] at hk
      rcases foldl_mapSet_isSome loaded vm._variables k hk with h1 | ⟨kv, hm, hkeq⟩
      · exact hinv k h1
      · rw [← hkeq]; exact hkeys kv hm objs0 hobjs
  | setStep nm val u =>
    intro k hk
    rcases setVariable_vars vm nm val u with hs | ⟨hs, hdecl⟩
    · rw [hs] at hk; exact hinv k hk
    · rw [hs, mapGet_mapSet] at hk
      by_cases he : nm = k
      · rw [← he]; exact hdecl objs0 hobjs
      · rw [if_neg he] at hk; exact hinv k hk
  | getStep tags => exact hinv

theorem writableBy_cases (vo : Variable) (u : User) :
    (∀ w, vo.writableBy = some w → w = "" ∨ u.tags.contains w = true) ∨
    (∃ w, vo.writableBy = some w ∧ w ≠ "" ∧ u.tags.contains w = false) := by
  cases hw : vo.writableBy with
  | none =>
    left
    intro w hww
    exact Option.noConfusion hww
  | some w =>
    by_cases hc : w ≠ "" ∧ u.tags.contains w = false
    · right; exact ⟨w, rfl, hc.1, hc.2⟩
    · left
      intro w2 hww
      injection hww with hww
      rw [← hww]
      push_neg at hc
      by_cases he : w = ""
      · exact Or.inl he
      · exact Or.inr (by simpa using hc he)

theorem setVariable_classify (vm : VariablesManager) (n v : String) (u : User) :
    (∃ objs, vm.variableObjects = some objs ∧ mapGet objs n = none ∧
      vm.setVariable n v u = (.error (.unknownVariable n), vm, [])) ∨
    (∃ objs vo w, vm.variableObjects = some objs ∧ mapGet objs n = some vo ∧
      vo.writableBy = some w ∧ w ≠ "" ∧ u.tags.contains w = false ∧
      vm.setVariable n v u =
        (.error (.insufficientPermission n u.name w u.tags), vm, [])) ∨
    (∃ r, vm.setVariable n v u =
      (.ok r, { vm with _variables := mapSet vm._variables n v },
        [(vm.roomUrl, n, v)])) := by
  obtain ⟨url, mp, vars, vobjs⟩ := vm
  cases vobjs with
  | none =>
    right; right
    exact ⟨none, setVariable_noSchema _ n v u rfl⟩
  | some objs =>
    cases hg : mapGet objs n with
    | none =>
      left
      exact ⟨objs, rfl, hg, setVariable_unknown _ n v u objs rfl hg⟩
    | some vo =>
      rcases writableBy_cases vo u with hok | ⟨w, hw, hne, hct⟩
      · right; right
        exact ⟨vo.readableBy, setVariable_okWrite _ n v u objs vo rfl hg hok⟩
      · right; left
        exact ⟨objs, vo, w, rfl, hg, hw, hne, hct,
          setVariable_authFail _ n v u objs vo w rfl hg hw hne hct⟩

/-- **C1 (counterexample).** The claim states that a successful write is
forwarded to the persistence backend only when the variable is marked
`persist` (or, schema-less, when `shouldPersist()` permits). In the store
built from `cmap0`, variable `y` is declared with `persist: false`, yet a
successful `setVariable` still emits the `saveVariable` call. -/
theorem C1_counterexample :
    cvm0.variableObjects = some cobjs0 ∧
    mapGet cobjs0 "y" = some { persist := some false } ∧
    (cvm0.setVariable "y" "v" cuser).1 = .ok none ∧
    (cvm0.setVariable "y" "v" cuser).2.2 = [("room", "y", "v")] := by
  refine ⟨rfl, by decide, by decide, by decide⟩

/-- **C1 (amended).** Every successful `setVariable(name, value, user)`
call forwards exactly one `saveVariable(roomUrl, name, value)` call to the
persistence backend, unconditionally — regardless of the variable's
`persist` flag and of the room-level `shouldPersist()` policy. -/
theorem C1_amended_save_unconditional (vm : VariablesManager)
    (name value : String) (user : User) (r : Option String)
    (vm' : VariablesManager) (s : List SaveCall)
    (h : vm.setVariable name value user = (.ok r, vm', s)) :
    s = [(vm.roomUrl, name, value)] :=
  (setVariable_ok vm name value user r vm' s h).2.1

/-- Witness for C1: the amended theorem applied to the concrete store
`cvm0`, variable `x`, user `cuser`. -/
theorem C1_witness :
    ([("room", "x", "v")] : List SaveCall) = [(cvm0.roomUrl, "x", "v")] :=
  C1_amended_save_unconditional cvm0 "x" "v" cuser none cvm0x
    [("room", "x", "v")] (by decide)

/-- **C10.** A successful `setVariable` changes at most the value-map entry
for the written name: every other entry and all other fields of the store
(the schema, the room URL, the map) are unchanged. -/
theorem C10_frame (vm : VariablesManager) (name value : String) (user : User)
    (r : Option String) (vm' : VariablesManager) (saved : List SaveCall)
    (h : vm.setVariable name value user = (.ok r, vm', saved)) :
    vm'.variableObjects = vm.variableObjects ∧
    vm'.roomUrl = vm.roomUrl ∧ vm'.map = vm.map ∧
    ∀ n2, n2 ≠ name → mapGet vm'._variables n2 = mapGet vm._variables n2 := by
  obtain ⟨hvm, hs, _⟩ := setVariable_ok vm name value user r vm' saved h
  subst hvm
  refine ⟨rfl, rfl, rfl, ?_⟩
  intro n2 hne
  show mapGet (mapSet vm._variables name value) n2 = mapGet vm._variables n2
  rw [mapGet_mapSet, if_neg (fun hc => hne hc.symm)]

/-- Witness for C10: after `cvm0.setVariable "x" "v"`, the entry for `y`
is unchanged. -/
theorem C10_witness :
    mapGet cvm0x._variables "y" = mapGet cvm0._variables "y" :=
  (C10_frame cvm0 "x" "v" cuser none cvm0x [("room", "x", "v")]
    (by decide)).2.2.2 "y" (by decide)

/-- **C3.** In every store whose schema was produced by the map extraction
(the only way the constructor ever creates one, and every operation leaves
`variableObjects` untouched) — the value map being arbitrary, so in
particular a store after any prior `setVariable` and `init` calls — a
write to a declared variable whose definition carries a `writableBy` tag,
by a user whose tag set lacks that tag, throws the authorization error
naming the variable, the user's display name, the required tag and the
user's actual tags, and leaves the store (in particular the value map)
unchanged. -/
theorem C3_auth_rejection (m : TiledMap) (vm : VariablesManager)
    (objs : List (String × Variable)) (name value : String) (user : User)
    (vo : Variable) (w : String)
    (hsch : findVariablesInMap m = .ok objs)
    (hobjs : vm.variableObjects = some objs)
    (hvo : mapGet objs name = some vo)
    (hw : vo.writableBy = some w)
    (htag : user.tags.contains w = false) :
    vm.setVariable name value user =
      (.error (.insufficientPermission name user.name w user.tags), vm, []) := by
  have hne : w ≠ "" := by
    intro hc
    exact findVariablesInMap_wb m objs hsch name vo hvo (by rw [hw, hc])
  exact setVariable_authFail vm name value user objs vo w hobjs hvo hw hne htag

/-- Witness for C3, the spec's concrete scenario: on `cvmR42` — the store
after `sec` was successfully set to `"42"` — the `guest` user `bob` is
rejected with the full audit data and the store, value `"42"` included,
is unchanged. -/
theorem C3_witness :
    cvmR42.setVariable "sec" "v" cguest =
      (.error (.insufficientPermission "sec" "bob" "admin" ["guest"]),
        cvmR42, []) :=
  C3_auth_rejection cmapR cvmR42 cobjsR "sec" "v" cguest
    csecVar "admin" (by decide) rfl (by decide) rfl (by decide)

/-- **C4.** `setVariable` throws the unknown-variable error exactly when a
schema exists and the name has no definition in it; with no schema, the
call never throws (it returns `ok` with no `readableBy` tag). -/
theorem C4_unknown_variable_iff (vm : VariablesManager) (name value : String)
    (user : User) :
    (isUnknownVarError (vm.setVariable name value user).1 = true ↔
      ∃ objs, vm.variableObjects = some objs ∧ mapGet objs name = none) ∧
    (vm.variableObjects = none →
      (vm.setVariable name value user).1 = .ok none) := by
  constructor
  · constructor
    · intro hu
      rcases setVariable_classify vm name value user with
        ⟨objs, hobjs, hnone, heq⟩ | ⟨objs, vo, w, hobjs, hvo, hw, hne, hct, heq⟩
          | ⟨r, heq⟩
      · exact ⟨objs, hobjs, hnone⟩
      · rw [heq] at hu; simp [isUnknownVarError] at hu
      · rw [heq] at hu; simp [isUnknownVarError] at hu
    · rintro ⟨objs, hobjs, hnone⟩
      rw [setVariable_unknown vm name value user objs hobjs hnone]
      rfl
  · intro hns
    rw [setVariable_noSchema vm name value user hns]

/-- Witness for C4: writing the undeclared name `zzz` on the schema-bound
store `cvm0` raises the unknown-variable error, and any write on the
schema-less store `cvmFree` succeeds. -/
theorem C4_witness :
    isUnknownVarError (cvm0.setVariable "zzz" "v" cuser).1 = true ∧
    (cvmFree.setVariable "anything" "v" cuser).1 = .ok none :=
  ⟨(C4_unknown_variable_iff cvm0 "zzz" "v" cuser).1.mpr
      ⟨cobjs0, rfl, by decide⟩,
    (C4_unknown_variable_iff cvmFree "anything" "v" cuser).2 rfl⟩

/-- **C2 (counterexample).** The claim states the invariant holds after any
sequence of constructor, `init`, `setVariable` and `getVariablesForTags`.
But `init` overlays whatever the persistence backend returns: loading the
pair `("ghost", "1")` into the store built from `cmap0` (persistence
active: Redis configured and a map present) puts the key `ghost` into the
value map although it has no definition in the schema. -/
theorem C2_counterexample :
    VariablesManager.make "room" (some cmap0) = .ok cvm0 ∧
    (cvm0.init cenv [("ghost", "1")]).variableObjects = some cobjs0 ∧
    mapGet (cvm0.init cenv [("ghost", "1")])._variables "ghost" = some "1" ∧
    mapGet cobjs0 "ghost" = none := by
  refine ⟨by decide, by decide, by decide, by decide⟩

/-- **C2 (amended).** For every store constructed with a schema, after any
sequence of the operations constructor, `init`, `setVariable` and
`getVariablesForTags` in which every key of the data loaded by each `init`
call is declared in the schema, every key present in the in-memory value
map has a corresponding definition in the room's schema. -/
theorem C2_amended_invariant (env : Env) (url : String) (m : TiledMap)
    (vm0 : VariablesManager) (objs0 : List (String × Variable))
    (vm : VariablesManager)
    (hmk : VariablesManager.make url (some m) = .ok vm0)
    (hobjs0 : vm0.variableObjects = some objs0)
    (hreach : Relation.ReflTransGen (Step env) vm0 vm) :
    vm.variableObjects = some objs0 ∧
    ∀ k, (mapGet vm._variables k).isSome = true →
      (mapGet objs0 k).isSome = true := by
  induction hreach with
  | refl =>
    refine ⟨hobjs0, ?_⟩
    obtain ⟨objs, hf, hvm⟩ := make_some_inv url m vm0 hmk
    subst hvm
    obtain rfl := Option.some.inj hobjs0
    intro k hk
    exact seedDefaults_isSome objs k hk
  | tail hab hbc ih =>
    obtain ⟨hobjsb, hinvb⟩ := ih
    constructor
    · rw [step_objects env _ _ hbc]; exact hobjsb
    · exact step_inv env objs0 _ _ hbc hobjsb hinvb

/-- Witness for C2: applied to the freshly constructed `cvm0` (empty
reachability trace), the seeded key `x` is declared in the schema. -/
theorem C2_witness : (mapGet cobjs0 "x").isSome = true :=
  (C2_amended_invariant cenv "room" cmap0 cvm0 cobjs0 cvm0 (by decide) rfl
    Relation.ReflTransGen.refl).2 "x" (by decide)

/-- **C9.** After a successful `setVariable(name, v, user)`, calling the
same `setVariable` again succeeds and leaves the store — hence the visible
state through `getVariablesForTags` for every tag set — exactly as after
the first call. -/
theorem C9_setVariable_idempotent (vm vm1 : VariablesManager)
    (name value : String) (user : User) (r : Option String)
    (s1 : List SaveCall)
    (h : vm.setVariable name value user = (.ok r, vm1, s1)) :
    exceptIsOk (vm1.setVariable name value user).1 = true ∧
    (vm1.setVariable name value user).2.1 = vm1 ∧
    ∀ tags, ((vm1.setVariable name value user).2.1).getVariablesForTags tags =
      vm1.getVariablesForTags tags := by
  obtain ⟨hvm1, hs1, _⟩ := setVariable_ok vm name value user r vm1 s1 h
  subst hvm1
  rcases setVariable_classify
      { vm with _variables := mapSet vm._variables name value }
      name value user with
    ⟨objs, hobjs1, hnone, heq⟩ | ⟨objs, vo, w, hobjs1, hvo, hw, hne, hct, heq⟩
      | ⟨r2, heq⟩
  · exfalso
    have hobjs : vm.variableObjects = some objs := hobjs1
    rw [setVariable_unknown vm name value user objs hobjs hnone] at h
    simp at h
  · exfalso
    have hobjs : vm.variableObjects = some objs := hobjs1
    rw [setVariable_authFail vm name value user objs vo w hobjs hvo hw hne
      hct] at h
    simp at h
  · have hstate :
        ({ vm with _variables := mapSet vm._variables name value }.setVariable
          name value user).2.1 =
        { vm with _variables := mapSet vm._variables name value } := by
      rw [heq]
      show ({ vm with
          _variables := mapSet (mapSet vm._variables name value) name value } :
        VariablesManager) =
        { vm with _variables := mapSet vm._variables name value }
      rw [mapSet_idem]
    refine ⟨?_, hstate, fun tags => by rw [hstate]⟩
    rw [heq]
    rfl

/-- Witness for C9: repeating `setVariable "x" "v"` on `cvm0x` (the state
after the first successful call on `cvm0`) leaves the store unchanged. -/
theorem C9_witness : (cvm0x.setVariable "x" "v" cuser).2.1 = cvm0x :=
  (C9_setVariable_idempotent cvm0 cvm0x "x" "v" cuser none
    [("room", "x", "v")] (by decide)).2.1

/-- **C5.** With no schema, `getVariablesForTags` returns the whole value
map for every tag set. With a schema (and every stored key covered by a
definition), it returns exactly those entries whose definition carries no
effective `readableBy` restriction (absent, or the empty string which the
schema treats as unset) or whose `readableBy` tag is a member of the given
tag set. -/
theorem C5_visibility_filter (vm : VariablesManager) (tags : List String) :
    (vm.variableObjects = none →
      vm.getVariablesForTags tags = .ok vm._variables) ∧
    ∀ objs, vm.variableObjects = some objs →
      (∀ kv ∈ vm._variables, (mapGet objs kv.1).isSome = true) →
      ∃ res, vm.getVariablesForTags tags = .ok res ∧
        ∀ k v, (k, v) ∈ res ↔ ((k, v) ∈ vm._variables ∧
          ∃ vo, mapGet objs k = some vo ∧
            (hasReadRestriction vo = false ∨
              ∃ t, vo.readableBy = some t ∧ tags.contains t = true)) := by
  constructor
  · intro hns
    simp [VariablesManager.getVariablesForTags, hns]
  · intro objs hobjs hcov
    obtain ⟨res, hres, hmem⟩ := readableFilter_spec objs tags vm._variables hcov
    refine ⟨res, ?_, hmem⟩
    simp only [VariablesManager.getVariablesForTags, hobjs]
    exact hres

/-- Witness for C5: the schema-less store returns its whole value map, and
the filtered read on `cvmR` (all keys covered by the schema) succeeds. -/
theorem C5_witness :
    cvmFree.getVariablesForTags ["guest"] = .ok cvmFree._variables ∧
    exceptIsOk (cvmR.getVariablesForTags ["guest"]) = true := by
  refine ⟨(C5_visibility_filter cvmFree ["guest"]).1 rfl, ?_⟩
  obtain ⟨res, hres, _⟩ :=
    (C5_visibility_filter cvmR ["guest"]).2 cobjsR rfl (by decide)
  rw [hres]
  rfl

/-- **C6.** A successful `setVariable` returns the `readableBy` value
declared for the variable in the schema, and `none` when the store has no
schema (in particular also when the variable carries no `readableBy`
restriction). -/
theorem C6_returns_readableBy (vm : VariablesManager) (name value : String)
    (user : User) (r : Option String)
    (h : (vm.setVariable name value user).1 = .ok r) :
    (vm.variableObjects = none → r = none) ∧
    ∀ objs, vm.variableObjects = some objs →
      ∃ vo, mapGet objs name = some vo ∧ r = vo.readableBy := by
  rcases setVariable_classify vm name value user with
    ⟨objs, hobjs, hnone, heq⟩ | ⟨objs, vo, w, hobjs, hvo, hw, hne, hct, heq⟩
      | ⟨r2, heq⟩
  · rw [heq] at h; simp at h
  · rw [heq] at h; simp at h
  · obtain ⟨_, _, hr⟩ := setVariable_ok vm name value user r2 _ _ heq
    rw [heq] at h
    simp only [Except.ok.injEq] at h
    constructor
    · intro hns
      rcases hr with ⟨_, hrn⟩ | ⟨objs, vo, hobjs, _, _⟩
      · rw [← h]; exact hrn
      · rw [hns] at hobjs; cases hobjs
    · intro objs hobjs
      rcases hr with ⟨hnone2, _⟩ | ⟨objs2, vo, hobjs2, hvo, hrr⟩
      · rw [hobjs] at hnone2; cases hnone2
      · rw [hobjs] at hobjs2
        obtain rfl := Option.some.inj hobjs2
        exact ⟨vo, hvo, by rw [← h]; exact hrr⟩

/-- Witness for C6: the authorized `admin` write to `sec` on `cvmR`
returns the declared `readableBy` tag `admin`. -/
theorem C6_witness :
    (some "admin" : Option String) = csecVar.readableBy := by
  obtain ⟨vo, hvo, hr⟩ :=
    (C6_returns_readableBy cvmR "sec" "v" cadmin (some "admin")
      (by decide)).2 cobjsR rfl
  have hconc : mapGet cobjsR "sec" = some csecVar := by decide
  rw [hconc] at hvo
  obtain rfl := Option.some.inj hvo
  exact hr

theorem applyProperty_persist_bad (objectName : String) (val : PropValue)
    (hv : val.isBoolean = false) (v2 : Variable) :
    ∃ e, applyProperty objectName v2 ⟨"persist", val⟩ = .error e := by
  cases val with
  | pbool b => simp [PropValue.isBoolean] at hv
  | pstr s =>
    exact ⟨.persistNotBoolean objectName, by simp [applyProperty]⟩
  | pnum n2 =>
    exact ⟨.persistNotBoolean objectName, by simp [applyProperty]⟩

theorem applyProperty_writableBy_bad (objectName : String) (val : PropValue)
    (hv : val.isString = false) (v2 : Variable) :
    ∃ e, applyProperty objectName v2 ⟨"writableBy", val⟩ = .error e := by
  cases val with
  | pstr s => simp [PropValue.isString] at hv
  | pbool b =>
    exact ⟨.writableByNotString objectName, by simp [applyProperty]⟩
  | pnum n2 =>
    exact ⟨.writableByNotString objectName, by simp [applyProperty]⟩

theorem applyProperty_readableBy_bad (objectName : String) (val : PropValue)
    (hv : val.isString = false) (v2 : Variable) :
    ∃ e, applyProperty objectName v2 ⟨"readableBy", val⟩ = .error e := by
  cases val with
  | pstr s => simp [PropValue.isString] at hv
  | pbool b =>
    exact ⟨.readableByNotString objectName, by simp [applyProperty]⟩
  | pnum n2 =>
    exact ⟨.readableByNotString objectName, by simp [applyProperty]⟩

theorem applyProperties_error_of_mem (objectName : String)
    (ps : List TiledProperty) (p : TiledProperty) (hp : p ∈ ps)
    (hbad : ∀ v2 : Variable, ∃ e, applyProperty objectName v2 p = .error e) :
    ∀ v2 : Variable, ∃ e, applyProperties objectName v2 ps = .error e := by
  induction ps with
  | nil => cases hp
  | cons q rest ih =>
    intro v2
    rcases List.mem_cons.mp hp with he | hm
    · subst he
      obtain ⟨e, he2⟩ := hbad v2
      exact ⟨e, by simp only [applyProperties, he2]⟩
    · cases hq : applyProperty objectName v2 q with
      | error e => exact ⟨e, by simp only [applyProperties, hq]⟩
      | ok v3 =>
        obtain ⟨e, he3⟩ := ih hm v3
        exact ⟨e, by simp only [applyProperties, hq]; exact he3⟩

/-- **C7.** During schema extraction: a `persist` property with a
non-boolean value makes the object's conversion throw a fatal schema
error; a `writableBy` / `readableBy` property with a non-string value
does too; a `writableBy` / `readableBy` property holding the empty string
leaves the variable unchanged (restriction unset); and a `default`
property stores the JSON-encoded form of its value. -/
theorem C7_schema_property_checks :
    (∀ (o : TiledMapObject) (props : List TiledProperty) (val : PropValue),
      o.properties = some props →
      (⟨"persist", val⟩ : TiledProperty) ∈ props → val.isBoolean = false →
      ∃ e, iTiledObjectToVariable o = .error e) ∧
    (∀ (o : TiledMapObject) (props : List TiledProperty) (val : PropValue),
      o.properties = some props →
      (⟨"writableBy", val⟩ : TiledProperty) ∈ props → val.isString = false →
      ∃ e, iTiledObjectToVariable o = .error e) ∧
    (∀ (o : TiledMapObject) (props : List TiledProperty) (val : PropValue),
      o.properties = some props →
      (⟨"readableBy", val⟩ : TiledProperty) ∈ props → val.isString = false →
      ∃ e, iTiledObjectToVariable o = .error e) ∧
    (∀ (objectName : String) (v : Variable),
      applyProperty objectName v ⟨"writableBy", .pstr ""⟩ = .ok v) ∧
    (∀ (objectName : String) (v : Variable),
      applyProperty objectName v ⟨"readableBy", .pstr ""⟩ = .ok v) ∧
    (∀ (objectName : String) (v : Variable) (val : PropValue),
      applyProperty objectName v ⟨"default", val⟩ =
        .ok { v with defaultValue := some (jsonStringify val) }) := by
  refine ⟨?_, ?_, ?_, ?_, ?_, ?_⟩
  · intro o props val hprops hmem hbad
    obtain ⟨e, he⟩ := applyProperties_error_of_mem o.name props
      ⟨"persist", val⟩ hmem (applyProperty_persist_bad o.name val hbad) {}
    exact ⟨e, by simp only [iTiledObjectToVariable, hprops]; exact he⟩
  · intro o props val hprops hmem hbad
    obtain ⟨e, he⟩ := applyProperties_error_of_mem o.name props
      ⟨"writableBy", val⟩ hmem
      (applyProperty_writableBy_bad o.name val hbad) {}
    exact ⟨e, by simp only [iTiledObjectToVariable, hprops]; exact he⟩
  · intro o props val hprops hmem hbad
    obtain ⟨e, he⟩ := applyProperties_error_of_mem o.name props
      ⟨"readableBy", val⟩ hmem
      (applyProperty_readableBy_bad o.name val hbad) {}
    exact ⟨e, by simp only [iTiledObjectToVariable, hprops]; exact he⟩
  · intro objectName v
    simp [applyProperty]
  · intro objectName v
    simp [applyProperty]
  · intro objectName v val
    simp [applyProperty]

/-- Witness for C7: the object with a string `persist` and the object with
a numeric `writableBy` both fail conversion; an empty `writableBy` leaves
the fresh variable unchanged; a `default` of `"0"` is stored JSON-encoded
(as `"\"0\""`). -/
theorem C7_witness :
    exceptIsOk (iTiledObjectToVariable cBadPersistObj) = false ∧
    exceptIsOk (iTiledObjectToVariable cBadWriteObj) = false ∧
    applyProperty "x" {} ⟨"writableBy", .pstr ""⟩ = .ok {} ∧
    applyProperty "x" {} ⟨"default", .pstr "0"⟩ =
      .ok { defaultValue := some (jsonStringify (.pstr "0")) } := by
  obtain ⟨h1, h2, h3, h4, h5, h6⟩ := C7_schema_property_checks
  refine ⟨?_, ?_, h4 "x" {}, h6 "x" {} (.pstr "0")⟩
  · obtain ⟨e, he⟩ := h1 cBadPersistObj [⟨"persist", .pstr "yes"⟩]
      (.pstr "yes") rfl (by decide) (by decide)
    rw [he]; rfl
  · obtain ⟨e, he⟩ := h2 cBadWriteObj [⟨"writableBy", .pnum 3⟩]
      (.pnum 3) rfl (by decide) (by decide)
    rw [he]; rfl

/-- **C8.** `shouldPersist()` is true exactly when a durable backend is
configured and the room has map data or the process runs in development
mode; `init()` is a no-op when it is false, and otherwise overlays every
loaded pair onto the in-memory value map, overwriting seeded defaults for
the same name and leaving other names at their previous values. -/
theorem C8_shouldPersist_init (env : Env) (vm : VariablesManager)
    (loaded : List (String × String))
    (hnd : (loaded.map Prod.fst).Nodup) :
    (vm.shouldPersist env = true ↔
      (env.redisConfigured = true ∧
        (vm.map.isSome = true ∨ env.nodeEnvDevelopment = true))) ∧
    (vm.shouldPersist env = false → vm.init env loaded = vm) ∧
    (vm.shouldPersist env = true → ∀ k,
      mapGet (vm.init env loaded)._variables k =
        optOr (mapGet loaded k) (mapGet vm._variables k)) := by
  refine ⟨?_, ?_, ?_⟩
  · unfold VariablesManager.shouldPersist
    simp [Bool.and_eq_true, Bool.or_eq_true]
  · intro hp
    unfold VariablesManager.init
    rw [if_pos hp]
  · intro hp k
    unfold VariablesManager.init
    rw [if_neg (by rw [hp]; simp)]
    exact foldl_mapSet_overlay loaded vm._variables k hnd

/-- Witness for C8: with no Redis backend, `init` is a no-op on the
schema-less store; with Redis and a map, loading `("x", "9")` into `cvm0`
overwrites the seeded default for `x`. -/
theorem C8_witness :
    cvmFree.init ⟨false, false⟩ [("k", "w")] = cvmFree ∧
    mapGet (cvm0.init cenv [("x", "9")])._variables "x" =
      optOr (mapGet [("x", "9")] "x") (mapGet cvm0._variables "x") :=
  ⟨(C8_shouldPersist_init ⟨false, false⟩ cvmFree [("k", "w")]
      (by decide)).2.1 (by decide),
   (C8_shouldPersist_init cenv cvm0 [("x", "9")] (by decide)).2.2
      (by decide) "x"⟩
